import Mathlib

/-!
Shallow embedding of the blob-packing layer of hat-backup
(`src/blob/mod.rs`): the `ChunkRef` locator and its codec, the
`StoreInner` accumulation engine, and the `BlobStore` concurrency facade
with its request-budget poison mechanism.

Byte strings are modelled as `List Nat`; callbacks (Rust boxed closures)
are modelled by opaque numeric identifiers, and every effect the Rust
code performs on a callback or on the external collaborators is recorded
in an explicit event trace.  Rust panics (slice out of bounds in
`retrieve`, `.expect` on a failed backend store in `flush`) are modelled
as distinguished outcomes rather than as values.

The external collaborators `BlobIndex` (src/blob/index.rs, not part of
the sources verified here) and `StoreBackend` are modelled from the
specification of their interfaces (spec §6): `reserve` hands out fresh,
never reused names; the backend is a durable name-to-bytes map with
read-after-write consistency whose `store`/`delete` operations may fail.
-/

namespace HatBackup

/-- Byte strings (`Vec<u8>` / `&[u8]`) are modelled as lists of naturals. -/
abbrev Bytes := List Nat

/-- Blob names (opaque byte identifiers). -/
abbrev Name := List Nat

/-- `Kind`: whether referenced bytes are a hash-tree leaf or branch
(discriminants 1 = TreeBranch, 2 = TreeLeaf in the wire format). -/
inductive Kind where
  | TreeBranch
  | TreeLeaf
deriving DecidableEq, Repr

/-- `ChunkRef`: persistent locator `(blob_id, offset, length, kind)`. -/
structure ChunkRef where
  blob_id : Name
  offset : Nat
  length : Nat
  kind : Kind
deriving DecidableEq, Repr

/-- `BlobDesc`: handle produced by the blob index, `{id, name}`. -/
structure BlobDesc where
  id : Nat
  name : Name
deriving DecidableEq, Repr

/-- Modelled from the spec: the external `BlobIndex`
(src/blob/index.rs is not among the verified sources).  It issues fresh
blob identities (`next` counter; names are never reused) and records
lifecycle state (in-flight, committed, recovered) plus the tag relation. -/
structure BlobIndex where
  next : Nat
  inAirL : List Name
  committedL : List Name
  recoveredL : List Name
  tagsL : List (Name × Nat)
deriving DecidableEq, Repr

namespace BlobIndex

/-- Modelled from the spec: `reserve()` returns a fresh `BlobDesc`
(fresh name and id, never reused while live). -/
def reserve (ix : BlobIndex) : BlobDesc × BlobIndex :=
  (⟨ix.next, [ix.next]⟩, { ix with next := ix.next + 1 })

/-- Modelled from the spec: mark a blob in-flight. -/
def in_air (ix : BlobIndex) (d : BlobDesc) : BlobIndex :=
  { ix with inAirL := d.name :: ix.inAirL }

/-- Modelled from the spec: mark a blob committed (it leaves the
in-flight set). -/
def commit_done (ix : BlobIndex) (d : BlobDesc) : BlobIndex :=
  { ix with committedL := d.name :: ix.committedL,
            inAirL := ix.inAirL.erase d.name }

/-- Modelled from the spec: discard uncommitted tracking. -/
def reset (ix : BlobIndex) : BlobIndex :=
  { ix with inAirL := [] }

/-- Modelled from the spec: record a blob as needed/recovered. -/
def recover (ix : BlobIndex) (n : Name) : BlobIndex :=
  { ix with recoveredL := n :: ix.recoveredL }

/-- Modelled from the spec: attach `tag` to a blob. -/
def tag (ix : BlobIndex) (d : BlobDesc) (t : Nat) : BlobIndex :=
  { ix with tagsL := (d.name, t) :: ix.tagsL }

/-- Modelled from the spec: attach `tag` to every currently tracked blob. -/
def tag_all (ix : BlobIndex) (t : Nat) : BlobIndex :=
  { ix with tagsL := ix.tagsL.map (fun p => (p.1, t)) }

/-- Modelled from the spec: names of all blobs carrying `tag`. -/
def list_by_tag (ix : BlobIndex) (t : Nat) : List Name :=
  (ix.tagsL.filter (fun p => decide (p.2 = t))).map (·.1)

/-- Modelled from the spec: purge the bookkeeping for `tag`. -/
def delete_by_tag (ix : BlobIndex) (t : Nat) : BlobIndex :=
  { ix with tagsL := ix.tagsL.filter (fun p => !(decide (p.2 = t))) }

end BlobIndex

/-- Modelled from the spec: the external `StoreBackend`, a durable
name-to-bytes map with read-after-write consistency.  `failPut` and
`failDelete` list the names on which `store` respectively `delete`
reports an error, so that error paths of the engine can be exercised. -/
structure Backend where
  data : List (Name × Bytes)
  failPut : List Name
  failDelete : List Name
deriving DecidableEq, Repr

namespace Backend

/-- `retrieve(name)`: look the name up. -/
def get (b : Backend) (n : Name) : Option Bytes :=
  (b.data.find? (fun p => decide (p.1 = n))).map (·.2)

/-- `store(name, data)`: write (or overwrite) the entry; the error value
is the failing name. -/
def put (b : Backend) (n : Name) (d : Bytes) : Except Name Backend :=
  if n ∈ b.failPut then .error n
  else
    .ok { b with
          data := (n, d) :: b.data.filter (fun p => !(decide (p.1 = n))) }

/-- `delete(name)`: remove the entry; the error value is the failing name. -/
def del (b : Backend) (n : Name) : Except Name Backend :=
  if n ∈ b.failDelete then .error n
  else .ok { b with data := b.data.filter (fun p => !(decide (p.1 = n))) }

end Backend

/-- Observable effects of the engine: index lifecycle transitions,
backend writes, and callback activity.  `cbInvoked` is a direct call of
a pending callback during flush; `cbSpawned` is the `thread::spawn`ed
invocation used for empty chunks. -/
inductive Event where
  | reserved (d : BlobDesc)
  | inAir (n : Name)
  | backendPut (n : Name) (d : Bytes)
  | commitDone (n : Name)
  | cbInvoked (cb : Nat) (r : ChunkRef)
  | cbSpawned (cb : Nat) (r : ChunkRef)
deriving DecidableEq, Repr

/-- `StoreInner`: the single-threaded accumulation state machine.
`blob_refs` holds the pending `(ChunkRef, callback)` records (callback
modelled by its identifier); `Vec::push` appends at the right end. -/
structure StoreInner where
  backend : Backend
  blob_index : BlobIndex
  blob_desc : BlobDesc
  blob_data : Bytes
  blob_refs : List (ChunkRef × Nat)
  max_blob_size : Nat
deriving DecidableEq, Repr

namespace StoreInner

/-- `reserve_new_blob`: swap a freshly reserved descriptor in as current
and hand back the old one (`mem::replace`). -/
def reserve_new_blob (s : StoreInner) : BlobDesc × StoreInner :=
  let (d, ix) := s.blob_index.reserve
  (s.blob_desc, { s with blob_desc := d, blob_index := ix })

/-- `StoreInner::flush`: no-op on an empty buffer; otherwise reserve and
swap in a new blob, mark the old one in-flight, write the buffer to the
backend under the old name (a backend error panics via `.expect`,
modelled by the `none` state), mark it committed, then pop and invoke
every pending callback (LIFO).  The event list records the order. -/
def flush (s : StoreInner) : Option StoreInner × List Event :=
  if s.blob_data = [] then (some s, [])
  else
    let (old, s1) := s.reserve_new_blob
    let oldData := s.blob_data
    let s2 := { s1 with blob_data := [],
                        blob_index := s1.blob_index.in_air old }
    match s2.backend.put old.name oldData with
    | .error _ => (none, [.reserved s1.blob_desc, .inAir old.name])
    | .ok b =>
        let s3 := { s2 with backend := b,
                            blob_index := s2.blob_index.commit_done old }
        (some { s3 with blob_refs := [] },
         [.reserved s1.blob_desc, .inAir old.name,
          .backendPut old.name oldData, .commitDone old.name]
           ++ s3.blob_refs.reverse.map (fun pr => .cbInvoked pr.2 pr.1))

/-- `maybe_flush`: flush exactly when the buffer has reached
`max_blob_size`. -/
def maybe_flush (s : StoreInner) : Option StoreInner × List Event :=
  if s.max_blob_size ≤ s.blob_data.length then s.flush else (some s, [])

/-- `StoreInner::reset`: reset the index, clear pending callbacks and
the buffer, reserve a fresh blob. -/
def reset (s : StoreInner) : StoreInner :=
  (StoreInner.reserve_new_blob
    { s with blob_index := s.blob_index.reset,
             blob_refs := [], blob_data := [] }).2

/-- `StoreInner::store`: an empty chunk yields the canonical empty
reference `{blob_id: [0], offset: 0, length: 0}` whose callback is
dispatched on a spawned thread and touches no state; a non-empty chunk
is addressed at the current buffer end, appended, and its callback
enqueued as pending. -/
def store (s : StoreInner) (chunk : Bytes) (kind : Kind) (cb : Nat) :
    ChunkRef × StoreInner × List Event :=
  if chunk = [] then
    let id : ChunkRef := ⟨[0], 0, 0, kind⟩
    (id, s, [.cbSpawned cb id])
  else
    let id : ChunkRef := ⟨s.blob_desc.name, s.blob_data.length, chunk.length, kind⟩
    (id, { s with blob_refs := s.blob_refs ++ [(id, cb)],
                  blob_data := s.blob_data ++ chunk }, [])

/-- Outcome of `retrieve`: a normal Rust return value, or a panic
(the out-of-bounds slice `blob[offset..offset+length]`). -/
inductive RetrieveResult where
  | ok (v : Option Bytes)
  | panicked
deriving DecidableEq, Repr

/-- `StoreInner::retrieve`: the degenerate reference short-circuits to
empty bytes; otherwise fetch the blob and slice it, panicking when the
range exceeds the blob. -/
def retrieve (s : StoreInner) (id : ChunkRef) : RetrieveResult :=
  if id.offset = 0 ∧ id.length = 0 then .ok (some [])
  else
    match s.backend.get id.blob_id with
    | some blob =>
        if id.offset + id.length ≤ blob.length then
          .ok (some ((blob.drop id.offset).take id.length))
        else .panicked
    | none => .ok none

/-- `store_named`: pass-through write to the backend. -/
def store_named (s : StoreInner) (n : Name) (d : Bytes) :
    Except Name StoreInner :=
  match s.backend.put n d with
  | .error e => .error e
  | .ok b => .ok { s with backend := b }

/-- `retrieve_named`: pass-through read from the backend. -/
def retrieve_named (s : StoreInner) (n : Name) : Option Bytes :=
  s.backend.get n

/-- `recover`: empty chunks are no-ops, otherwise tell the index the
blob is needed. -/
def recover (s : StoreInner) (chunk : ChunkRef) : StoreInner :=
  if chunk.offset = 0 ∧ chunk.length = 0 then s
  else { s with blob_index := s.blob_index.recover chunk.blob_id }

/-- `tag`: tag the blob named by the chunk. -/
def tag (s : StoreInner) (chunk : ChunkRef) (t : Nat) : StoreInner :=
  { s with blob_index := s.blob_index.tag ⟨0, chunk.blob_id⟩ t }

/-- `tag_all`: tag every tracked blob. -/
def tag_all (s : StoreInner) (t : Nat) : StoreInner :=
  { s with blob_index := s.blob_index.tag_all t }

/-- Delete each of the names in turn, stopping at the first backend
error; returns the backend reached together with the failing name, if
any (already performed deletions persist, as with the shared mutable
backend in the source). -/
def deleteAll (b : Backend) : List Name → Backend × Option Name
  | [] => (b, none)
  | n :: rest =>
      match b.del n with
      | .error e => (b, some e)
      | .ok b2 => deleteAll b2 rest

/-- `delete_by_tag`: delete every blob listed under the tag from the
backend; only when all deletes succeed purge the index's bookkeeping
for the tag.  A failure aborts with that error and leaves the index
untouched, while earlier deletions persist. -/
def delete_by_tag (s : StoreInner) (t : Nat) : StoreInner × Option Name :=
  let r := deleteAll s.backend (s.blob_index.list_by_tag t)
  match r.2 with
  | some e => ({ s with backend := r.1 }, some e)
  | none =>
      ({ s with backend := r.1, blob_index := s.blob_index.delete_by_tag t },
       none)

/-- `StoreInner::new` starting from a fresh index and an empty backend:
reserves the first blob descriptor. -/
def init (maxSize : Nat) : StoreInner :=
  let s0 : StoreInner :=
    { backend := ⟨[], [], []⟩
      blob_index := ⟨0, [], [], [], []⟩
      blob_desc := ⟨0, []⟩
      blob_data := []
      blob_refs := []
      max_blob_size := maxSize }
  (s0.reserve_new_blob).2

end StoreInner

/-- Operations a client can drive the accumulation engine with. -/
inductive Op where
  | store (c : Bytes) (k : Kind) (cb : Nat)
  | flush
  | maybeFlush
deriving DecidableEq, Repr

/-- Run a sequence of operations from a state, collecting every
`(chunk, returned reference)` pair; `none` when a flush panicked. -/
def run : StoreInner → List Op → Option (StoreInner × List (Bytes × ChunkRef))
  | s, [] => some (s, [])
  | s, Op.store c k cb :: rest =>
      let p := s.store c k cb
      (run p.2.1 rest).map (fun q => (q.1, (c, p.1) :: q.2))
  | s, Op.flush :: rest =>
      match s.flush with
      | (some s2, _) => run s2 rest
      | (none, _) => none
  | s, Op.maybeFlush :: rest =>
      match s.maybe_flush with
      | (some s2, _) => run s2 rest
      | (none, _) => none

/-- Run a sequence of plain `store` calls, collecting the returned
references in call order. -/
def runStores : StoreInner → List (Bytes × Kind × Nat) → StoreInner × List ChunkRef
  | s, [] => (s, [])
  | s, (c, k, cb) :: rest =>
      let p := s.store c k cb
      let q := runStores p.2.1 rest
      (q.1, p.1 :: q.2)

/-- The reference layout `store` produces for consecutive non-empty
chunks: blob name fixed, offsets advancing by each chunk's length. -/
def buildRefs (n : Name) : Nat → List (Bytes × Kind × Nat) → List ChunkRef
  | _, [] => []
  | off, (c, k, _) :: rest =>
      ⟨n, off, c.length, k⟩ :: buildRefs n (off + c.length) rest

/-- Little-endian byte encoding of a natural in `k` bytes. -/
def toLE : Nat → Nat → List Nat
  | 0, _ => []
  | k + 1, n => n % 256 :: toLE k (n / 256)

/-- Value of a little-endian byte list. -/
def fromLE : List Nat → Nat
  | [] => 0
  | b :: bs => b + 256 * fromLE bs

/-- Wire discriminant of a kind (spec §6: tree_branch = 1, tree_leaf = 2). -/
def kindTag : Kind → Nat
  | .TreeBranch => 1
  | .TreeLeaf => 2

namespace ChunkRef

/-- Well-formed reference for the codec: field values representable in
the wire format (`blob_id` length in a 64-bit header, `offset` and
`length` as non-negative `int64`). -/
def WF (r : ChunkRef) : Prop :=
  r.blob_id.length < 2 ^ 64 ∧ r.offset < 2 ^ 63 ∧ r.length < 2 ^ 63

instance (r : ChunkRef) : Decidable (WF r) := by unfold WF; infer_instance

/-- Modelled from the spec: `ChunkRef::as_bytes` (the capnp
`serialize_packed` writer and the `root_capnp` schema are not among the
verified sources).  A compact versioned binary record: version byte,
64-bit `blob_id` length, the `blob_id` bytes, `offset` and `length` as
64-bit fields, and the kind discriminant — every field present, no
implicit defaults. -/
def as_bytes (r : ChunkRef) : Bytes :=
  [1] ++ toLE 8 r.blob_id.length ++ r.blob_id ++ toLE 8 r.offset ++
    toLE 8 r.length ++ [kindTag r.kind]

/-- Modelled from the spec: `ChunkRef::from_bytes`.  Fails with a format
error on a truncated buffer, a bad version, or an unknown kind tag. -/
def from_bytes (bs : Bytes) : Except String ChunkRef :=
  if bs.length < 9 then .error "truncated header"
  else if bs.head? ≠ some 1 then .error "bad version"
  else
    let n := fromLE ((bs.drop 1).take 8)
    if bs.length < 26 + n then .error "truncated body"
    else
      let off := fromLE ((bs.drop (9 + n)).take 8)
      let len := fromLE ((bs.drop (17 + n)).take 8)
      let tagl := (bs.drop (25 + n)).take 1
      if tagl = [1] then .ok ⟨(bs.drop 9).take n, off, len, .TreeBranch⟩
      else if tagl = [2] then .ok ⟨(bs.drop 9).take n, off, len, .TreeLeaf⟩
      else .error "bad kind"

end ChunkRef

/-- `LockError`: poisoned mutex, or exhausted request budget. -/
inductive LockError where
  | Poisoned
  | RequestLimitReached
deriving DecidableEq, Repr

/-- `MsgError`: a lock error or a validation message. -/
inductive MsgError where
  | Lock (e : LockError)
  | Message (s : String)
deriving DecidableEq, Repr

/-- `BlobStore`: the facade's shared state — the inner engine and the
request budget behind one mutex, plus whether that mutex has been
poisoned by a panic. -/
structure BlobStore where
  inner : StoreInner
  budget : Option Int
  mutexPoisoned : Bool
deriving DecidableEq, Repr

namespace BlobStore

/-- `lock_ignore_poison`: acquire the mutex, reporting only poisoning. -/
def lock_ignore_poison (st : BlobStore) : Except LockError BlobStore :=
  if st.mutexPoisoned then .error .Poisoned else .ok st

/-- `lock`: acquire the mutex, then consult the budget: `None` is
unlimited, `Some 0` refuses with `RequestLimitReached`, any other
`Some n` is decremented. -/
def lock (st : BlobStore) : Except LockError BlobStore :=
  match lock_ignore_poison st with
  | .error e => .error e
  | .ok g =>
      match g.budget with
      | none => .ok g
      | some n =>
          if n = 0 then .error .RequestLimitReached
          else .ok { g with budget := some (n - 1) }

/-- `BlobStore::store`: under the budgeted lock run the inner store,
then (modelling the spawned background thread that re-locks the mutex
directly) run `maybe_flush`; a panic inside that thread poisons the
mutex. -/
def store (st : BlobStore) (chunk : Bytes) (kind : Kind) (cb : Nat) :
    Except LockError (ChunkRef × BlobStore × List Event) :=
  match lock st with
  | .error e => .error e
  | .ok g =>
      let (r, s1, evs1) := g.inner.store chunk kind cb
      match s1.maybe_flush with
      | (some s2, evs2) => .ok (r, { g with inner := s2 }, evs1 ++ evs2)
      | (none, evs2) =>
          .ok (r, { g with inner := s1, mutexPoisoned := true }, evs1 ++ evs2)

/-- `BlobStore::retrieve`; the inner slice panic is surfaced as `none`. -/
def retrieve (st : BlobStore) (id : ChunkRef) :
    Except MsgError (Option (Option Bytes × BlobStore)) :=
  match lock st with
  | .error e => .error (.Lock e)
  | .ok g =>
      match g.inner.retrieve id with
      | .ok v => .ok (some (v, g))
      | .panicked => .ok none

/-- `BlobStore::store_named`. -/
def store_named (st : BlobStore) (n : Name) (d : Bytes) :
    Except MsgError BlobStore :=
  match lock st with
  | .error e => .error (.Lock e)
  | .ok g =>
      match g.inner.store_named n d with
      | .error _ => .error (.Message "backend error")
      | .ok s1 => .ok { g with inner := s1 }

/-- `BlobStore::retrieve_named`. -/
def retrieve_named (st : BlobStore) (n : Name) :
    Except MsgError (Option Bytes × BlobStore) :=
  match lock st with
  | .error e => .error (.Lock e)
  | .ok g => .ok (g.inner.retrieve_named n, g)

/-- `BlobStore::recover`. -/
def recover (st : BlobStore) (chunk : ChunkRef) :
    Except LockError BlobStore :=
  match lock st with
  | .error e => .error e
  | .ok g => .ok { g with inner := g.inner.recover chunk }

/-- `BlobStore::tag`. -/
def tag (st : BlobStore) (chunk : ChunkRef) (t : Nat) :
    Except LockError BlobStore :=
  match lock st with
  | .error e => .error e
  | .ok g => .ok { g with inner := g.inner.tag chunk t }

/-- `BlobStore::tag_all`. -/
def tag_all (st : BlobStore) (t : Nat) : Except LockError BlobStore :=
  match lock st with
  | .error e => .error e
  | .ok g => .ok { g with inner := g.inner.tag_all t }

/-- `BlobStore::delete_by_tag`. -/
def delete_by_tag (st : BlobStore) (t : Nat) : Except MsgError BlobStore :=
  match lock st with
  | .error e => .error (.Lock e)
  | .ok g =>
      match g.inner.delete_by_tag t with
      | (_, some _) => .error (.Message "backend error")
      | (s1, none) => .ok { g with inner := s1 }

/-- `BlobStore::flush`: under the budgeted lock flush the engine and
then the index's durable state (a no-op in this model); a flush panic
(`none`) poisons the state irrecoverably. -/
def flush (st : BlobStore) :
    Except LockError (Option (BlobStore × List Event)) :=
  match lock st with
  | .error e => .error e
  | .ok g =>
      match g.inner.flush with
      | (some s1, evs) => .ok (some ({ g with inner := s1 }, evs))
      | (none, _) => .ok none

/-- `BlobStore::reset`: acquire the mutex ignoring the budget; refuse
unless the budget is exactly `Some 0`; otherwise clear the poison and
reset the engine.  The returned event list is empty: the pending
callbacks are abandoned, never invoked. -/
def reset (st : BlobStore) : Except MsgError (BlobStore × List Event) :=
  match lock_ignore_poison st with
  | .error e => .error (.Lock e)
  | .ok g =>
      if g.budget ≠ some 0 then
        .error (.Message "This process has not been poisoned")
      else
        .ok ({ g with budget := none, inner := g.inner.reset }, [])

end BlobStore

instance {ε α : Type} [DecidableEq ε] [DecidableEq α] :
    DecidableEq (Except ε α) := fun x y =>
  match x, y with
  | .ok a, .ok b =>
      decidable_of_iff (a = b) ⟨fun h => by rw [h], fun h => by cases h; rfl⟩
  | .error a, .error b =>
      decidable_of_iff (a = b) ⟨fun h => by rw [h], fun h => by cases h; rfl⟩
  | .ok _, .error _ => isFalse (fun h => Except.noConfusion h)
  | .error _, .ok _ => isFalse (fun h => Except.noConfusion h)

/-! ## Claims -/

/-- C5: storing an empty chunk returns the canonical empty reference
`{blob_id: [0], offset: 0, length: 0, kind}`, dispatches the callback
with that reference on a spawned thread, and leaves the whole engine
state — in particular the buffer and the pending-callback list —
unchanged, whatever that state is. -/
theorem claim_C5 (s : StoreInner) (kind : Kind) (cb : Nat) :
    s.store [] kind cb =
      (⟨[0], 0, 0, kind⟩, s, [Event.cbSpawned cb ⟨[0], 0, 0, kind⟩]) := by
  simp [StoreInner.store]

/-- C6: `maybe_flush` calls `flush` exactly when the buffer length has
reached `max_blob_size`, and `flush` on an empty buffer is a no-op that
changes no state and performs no effect. -/
theorem claim_C6 (s : StoreInner) :
    (s.max_blob_size ≤ s.blob_data.length → s.maybe_flush = s.flush) ∧
    (s.blob_data.length < s.max_blob_size → s.maybe_flush = (some s, [])) ∧
    (s.blob_data = [] → s.flush = (some s, [])) := by
  refine ⟨fun h => ?_, fun h => ?_, fun h => ?_⟩
  · simp [StoreInner.maybe_flush, h]
  · simp [StoreInner.maybe_flush, Nat.not_le.mpr h]
  · simp [StoreInner.flush, h]

/-- C6 witness: concrete states exercising each hypothesis. -/
theorem claim_C6_witness :
    ({ StoreInner.init 2 with blob_data := [5, 6] }).maybe_flush =
        ({ StoreInner.init 2 with blob_data := [5, 6] }).flush ∧
      (StoreInner.init 2).maybe_flush = (some (StoreInner.init 2), []) ∧
      (StoreInner.init 2).flush = (some (StoreInner.init 2), []) :=
  ⟨(claim_C6 _).1 (by decide), (claim_C6 _).2.1 (by decide),
   (claim_C6 _).2.2 (by decide)⟩

/-- C10: on a reference that is not the degenerate empty one, whose blob
is present in the backend but shorter than `offset + length`, `retrieve`
panics on the out-of-bounds slice; when `offset + length` fits in the
blob no panic occurs. -/
theorem claim_C10 (s : StoreInner) (id : ChunkRef) (b : Bytes)
    (hnz : ¬(id.offset = 0 ∧ id.length = 0))
    (hb : s.backend.get id.blob_id = some b) :
    (b.length < id.offset + id.length → s.retrieve id = .panicked) ∧
    (id.offset + id.length ≤ b.length → s.retrieve id ≠ .panicked) := by
  refine ⟨fun h => ?_, fun h => ?_⟩
  · simp [StoreInner.retrieve, hnz, hb, Nat.not_le.mpr h]
  · simp [StoreInner.retrieve, hnz, hb, h]

/-- C10 witness: a two-byte blob: the range `[1, 6)` panics, the range
`[0, 2)` does not. -/
theorem claim_C10_witness :
    (StoreInner.retrieve
        { StoreInner.init 4 with backend := ⟨[([2], [7, 8])], [], []⟩ }
        ⟨[2], 1, 5, Kind.TreeLeaf⟩ = .panicked) ∧
      (StoreInner.retrieve
        { StoreInner.init 4 with backend := ⟨[([2], [7, 8])], [], []⟩ }
        ⟨[2], 0, 2, Kind.TreeLeaf⟩ ≠ .panicked) :=
  ⟨(claim_C10 _ _ [7, 8] (by decide) (by decide)).1 (by decide),
   (claim_C10 _ _ [7, 8] (by decide) (by decide)).2 (by decide)⟩

/-- C8: with the mutex healthy, `reset` errors whenever the budget is
not exactly `Some 0`; on `Some 0` it clears the poison (budget becomes
unlimited), discards the index's in-flight tracking while keeping the
committed record, abandons the pending callbacks without invoking them
(empty event list, empty pending list), clears the buffer, keeps the
backend untouched, and reserves a fresh blob identity. -/
theorem claim_C8 (st : BlobStore) (hp : st.mutexPoisoned = false) :
    (st.budget ≠ some 0 →
      st.reset = .error (.Message "This process has not been poisoned")) ∧
    (st.budget = some 0 →
      st.reset = .ok ({ st with budget := none, inner := st.inner.reset }, []) ∧
      st.inner.reset.blob_refs = [] ∧
      st.inner.reset.blob_data = [] ∧
      st.inner.reset.blob_index.inAirL = [] ∧
      st.inner.reset.blob_index.committedL = st.inner.blob_index.committedL ∧
      st.inner.reset.blob_desc =
        ⟨st.inner.blob_index.next, [st.inner.blob_index.next]⟩ ∧
      st.inner.reset.blob_index.next = st.inner.blob_index.next + 1 ∧
      st.inner.reset.backend = st.inner.backend) := by
  constructor
  · intro h
    simp [BlobStore.reset, BlobStore.lock_ignore_poison, hp, h]
  · intro h
    refine ⟨?_, ?_, ?_, ?_, ?_, ?_, ?_, ?_⟩ <;>
      simp [BlobStore.reset, BlobStore.lock_ignore_poison, hp, h,
        StoreInner.reset, StoreInner.reserve_new_blob, BlobIndex.reserve,
        BlobIndex.reset]

/-- C8 witness: a non-poisoned budget is refused; a `Some 0` budget is
reset. -/
theorem claim_C8_witness :
    (BlobStore.reset ⟨StoreInner.init 4, some 3, false⟩ =
        .error (.Message "This process has not been poisoned")) ∧
      (BlobStore.reset ⟨StoreInner.init 4, some 0, false⟩ =
        .ok (⟨(StoreInner.init 4).reset, none, false⟩, [])) :=
  ⟨(claim_C8 ⟨StoreInner.init 4, some 3, false⟩ (by decide)).1 (by decide),
   ((claim_C8 ⟨StoreInner.init 4, some 0, false⟩ (by decide)).2 (by decide)).1⟩

/-- C7 counterexample: `reset` is a public method of `BlobStore`, yet on
a healthy mutex with the budget exhausted (`Some 0`) it does not fail
with `RequestLimitReached` — it succeeds, because it acquires the mutex
through `lock_ignore_poison` and never consults the budgeted lock. -/
theorem claim_C7_counterexample :
    BlobStore.reset ⟨StoreInner.init 4, some 0, false⟩ ≠
        .error (.Lock .RequestLimitReached) ∧
      (BlobStore.reset ⟨StoreInner.init 4, some 0, false⟩).isOk = true := by
  constructor
  · intro h
    simp [BlobStore.reset, BlobStore.lock_ignore_poison] at h
  · rfl

/-- C7 as amended: every public method of `BlobStore` except `reset`
acquires the budgeted lock — failing with `Poisoned` when the mutex is
poisoned and with `RequestLimitReached` when the budget is `Some 0`;
a budget of `None` imposes no limit, and a successful acquisition
decrements a finite budget by one.  `reset` acquires the mutex ignoring
the budget: it fails only with `Poisoned`. -/
theorem claim_C7_amended (st : BlobStore) (chunk : Bytes) (kind : Kind)
    (cb : Nat) (id : ChunkRef) (nm : Name) (d : Bytes) (t : Nat) :
    (st.mutexPoisoned = true →
      st.store chunk kind cb = .error .Poisoned ∧
      st.retrieve id = .error (.Lock .Poisoned) ∧
      st.store_named nm d = .error (.Lock .Poisoned) ∧
      st.retrieve_named nm = .error (.Lock .Poisoned) ∧
      st.recover id = .error .Poisoned ∧
      st.tag id t = .error .Poisoned ∧
      st.tag_all t = .error .Poisoned ∧
      st.delete_by_tag t = .error (.Lock .Poisoned) ∧
      st.flush = .error .Poisoned ∧
      st.reset = .error (.Lock .Poisoned)) ∧
    (st.mutexPoisoned = false → st.budget = some 0 →
      st.store chunk kind cb = .error .RequestLimitReached ∧
      st.retrieve id = .error (.Lock .RequestLimitReached) ∧
      st.store_named nm d = .error (.Lock .RequestLimitReached) ∧
      st.retrieve_named nm = .error (.Lock .RequestLimitReached) ∧
      st.recover id = .error .RequestLimitReached ∧
      st.tag id t = .error .RequestLimitReached ∧
      st.tag_all t = .error .RequestLimitReached ∧
      st.delete_by_tag t = .error (.Lock .RequestLimitReached) ∧
      st.flush = .error .RequestLimitReached ∧
      (st.reset).isOk = true) ∧
    (st.mutexPoisoned = false → st.budget = none → st.lock = .ok st) ∧
    (∀ n : Int, st.mutexPoisoned = false → st.budget = some n → n ≠ 0 →
      st.lock = .ok { st with budget := some (n - 1) } ∧
      st.retrieve_named nm =
        .ok (st.inner.retrieve_named nm, { st with budget := some (n - 1) }) ∧
      st.recover id =
        .ok { st with budget := some (n - 1),
                      inner := st.inner.recover id }) := by
  refine ⟨fun hp => ?_, fun hp hb => ?_, fun hp hb => ?_, fun n hp hb hn => ?_⟩
  · refine ⟨?_, ?_, ?_, ?_, ?_, ?_, ?_, ?_, ?_, ?_⟩ <;>
      simp [BlobStore.store, BlobStore.retrieve, BlobStore.store_named,
        BlobStore.retrieve_named, BlobStore.recover, BlobStore.tag,
        BlobStore.tag_all, BlobStore.delete_by_tag, BlobStore.flush,
        BlobStore.reset, BlobStore.lock, BlobStore.lock_ignore_poison, hp]
  · refine ⟨?_, ?_, ?_, ?_, ?_, ?_, ?_, ?_, ?_, ?_⟩ <;>
      simp [BlobStore.store, BlobStore.retrieve, BlobStore.store_named,
        BlobStore.retrieve_named, BlobStore.recover, BlobStore.tag,
        BlobStore.tag_all, BlobStore.delete_by_tag, BlobStore.flush,
        BlobStore.reset, BlobStore.lock, BlobStore.lock_ignore_poison,
        hp, hb, Except.isOk, Except.toBool]
  · simp [BlobStore.lock, BlobStore.lock_ignore_poison, hp, hb]
  · refine ⟨?_, ?_, ?_⟩ <;>
      simp [BlobStore.lock, BlobStore.lock_ignore_poison,
        BlobStore.retrieve_named, BlobStore.recover, hp, hb, hn]

/-- C7 witness: the amended statement exercised on concrete states for
each hypothesis combination. -/
theorem claim_C7_witness :
    (BlobStore.flush ⟨StoreInner.init 4, none, true⟩ = .error .Poisoned) ∧
      (BlobStore.flush ⟨StoreInner.init 4, some 0, false⟩ =
        .error .RequestLimitReached) ∧
      (BlobStore.lock ⟨StoreInner.init 4, none, false⟩ =
        .ok ⟨StoreInner.init 4, none, false⟩) ∧
      (BlobStore.lock ⟨StoreInner.init 4, some 2, false⟩ =
        .ok ⟨StoreInner.init 4, some 1, false⟩) :=
  ⟨((claim_C7_amended ⟨StoreInner.init 4, none, true⟩ [] .TreeLeaf 0
      ⟨[0], 0, 0, .TreeLeaf⟩ [] [] 0).1 (by decide)).2.2.2.2.2.2.2.2.1,
   ((claim_C7_amended ⟨StoreInner.init 4, some 0, false⟩ [] .TreeLeaf 0
      ⟨[0], 0, 0, .TreeLeaf⟩ [] [] 0).2.1 (by decide) (by decide)).2.2.2.2.2.2.2.2.1,
   (claim_C7_amended ⟨StoreInner.init 4, none, false⟩ [] .TreeLeaf 0
      ⟨[0], 0, 0, .TreeLeaf⟩ [] [] 0).2.2.1 (by decide) (by decide),
   ((claim_C7_amended ⟨StoreInner.init 4, some 2, false⟩ [] .TreeLeaf 0
      ⟨[0], 0, 0, .TreeLeaf⟩ [] [] 0).2.2.2 2 (by decide) (by decide)
      (by decide)).1⟩

theorem runStores_refs_eq (ops : List (Bytes × Kind × Nat)) :
    ∀ s : StoreInner, (∀ o ∈ ops, o.1 ≠ []) →
      (runStores s ops).2 = buildRefs s.blob_desc.name s.blob_data.length ops := by
  induction ops with
  | nil => intro s _; rfl
  | cons o rest ih =>
      intro s h
      obtain ⟨c, k, cb⟩ := o
      have hc : c ≠ [] := h (c, k, cb) (List.mem_cons_self _ _)
      simp only [runStores, StoreInner.store, if_neg hc, buildRefs,
        List.cons.injEq]
      refine ⟨trivial, ?_⟩
      have := ih { s with
          blob_refs := s.blob_refs ++
            [(⟨s.blob_desc.name, s.blob_data.length, c.length, k⟩, cb)],
          blob_data := s.blob_data ++ c }
        (fun o ho => h o (List.mem_cons_of_mem _ ho))
      simpa [List.length_append] using this

theorem buildRefs_zero (n : Name) :
    ∀ (ops : List (Bytes × Kind × Nat)) (off : Nat) (r : ChunkRef),
      (buildRefs n off ops)[0]? = some r → r.offset = off ∧ r.blob_id = n := by
  intro ops off r h
  cases ops with
  | nil => simp [buildRefs] at h
  | cons o rest =>
      obtain ⟨c, k, cb⟩ := o
      simp [buildRefs] at h
      simp [← h]

theorem buildRefs_succ (n : Name) (ops : List (Bytes × Kind × Nat)) :
    ∀ (off i : Nat) (r r' : ChunkRef), (∀ o ∈ ops, o.1 ≠ []) →
      (buildRefs n off ops)[i]? = some r →
      (buildRefs n off ops)[i + 1]? = some r' →
      r.blob_id = n ∧ r'.offset = r.offset + r.length ∧ 0 < r.length := by
  induction ops with
  | nil => intro off i r r' _ h; simp [buildRefs] at h
  | cons o rest ih =>
      intro off i r r' hne h h'
      obtain ⟨c, k, cb⟩ := o
      have hc : c ≠ [] := hne (c, k, cb) (List.mem_cons_self _ _)
      match i with
      | 0 =>
          simp only [buildRefs, List.getElem?_cons_zero,
            List.getElem?_cons_succ, Option.some_inj] at h h'
          obtain ⟨hoff, _⟩ := buildRefs_zero n rest (off + c.length) r' h'
          subst h
          exact ⟨rfl, by simpa using hoff,
            List.length_pos.mpr hc⟩
      | i + 1 =>
          simp only [buildRefs, List.getElem?_cons_succ] at h h'
          exact ih (off + c.length) i r r'
            (fun o ho => hne o (List.mem_cons_of_mem _ ho)) h h'

/-- C3: a non-empty `store` returns a reference addressing
`(current blob name, buffer length at call time, chunk length, kind)`,
appends the chunk to the buffer and enqueues the pending
`(ref, callback)` record; consequently a sequence of non-empty stores
against the same current blob produces the `buildRefs` layout — the
first offset is the buffer length at call time and consecutive offsets
strictly increase, each by the previous chunk's length. -/
theorem claim_C3 (s : StoreInner) (chunk : Bytes) (kind : Kind) (cb : Nat)
    (ops : List (Bytes × Kind × Nat)) :
    (chunk ≠ [] →
      s.store chunk kind cb =
        (⟨s.blob_desc.name, s.blob_data.length, chunk.length, kind⟩,
         { s with
             blob_refs := s.blob_refs ++
               [(⟨s.blob_desc.name, s.blob_data.length, chunk.length, kind⟩,
                 cb)],
             blob_data := s.blob_data ++ chunk },
         [])) ∧
    ((∀ o ∈ ops, o.1 ≠ []) →
      (runStores s ops).2 =
          buildRefs s.blob_desc.name s.blob_data.length ops ∧
      (∀ r, ((runStores s ops).2)[0]? = some r →
        r.offset = s.blob_data.length) ∧
      (∀ i r r', ((runStores s ops).2)[i]? = some r →
        ((runStores s ops).2)[i + 1]? = some r' →
        r.blob_id = s.blob_desc.name ∧
          r'.offset = r.offset + r.length ∧ r.offset < r'.offset)) := by
  constructor
  · intro hc
    simp [StoreInner.store, if_neg hc]
  · intro hne
    have heq := runStores_refs_eq ops s hne
    refine ⟨heq, ?_, ?_⟩
    · intro r h
      rw [heq] at h
      exact (buildRefs_zero _ _ _ _ h).1
    · intro i r r' h h'
      rw [heq] at h h'
      obtain ⟨h1, h2, h3⟩ := buildRefs_succ _ ops _ i r r' hne h h'
      exact ⟨h1, h2, by omega⟩

/-- C3 witness: the spec's example scenario — storing 6 then 8 bytes
yields offsets 0 and 6. -/
theorem claim_C3_witness :
    StoreInner.store (StoreInner.init 10) [1, 2, 3, 4, 5, 6] Kind.TreeLeaf 7 =
      (⟨[0], 0, 6, Kind.TreeLeaf⟩,
       { StoreInner.init 10 with
           blob_refs := [(⟨[0], 0, 6, Kind.TreeLeaf⟩, 7)],
           blob_data := [1, 2, 3, 4, 5, 6] },
       []) ∧
    (runStores (StoreInner.init 10)
        [([1, 2, 3, 4, 5, 6], Kind.TreeLeaf, 7),
         ([1, 2, 3, 4, 5, 6, 7, 8], Kind.TreeLeaf, 8)]).2 =
      buildRefs [0] 0
        [([1, 2, 3, 4, 5, 6], Kind.TreeLeaf, 7),
         ([1, 2, 3, 4, 5, 6, 7, 8], Kind.TreeLeaf, 8)] := by
  constructor
  · have := (claim_C3 (StoreInner.init 10) [1, 2, 3, 4, 5, 6] Kind.TreeLeaf 7
      []).1 (by decide)
    simpa [StoreInner.init, StoreInner.reserve_new_blob, BlobIndex.reserve]
      using this
  · have := ((claim_C3 (StoreInner.init 10) [] Kind.TreeLeaf 0
      [([1, 2, 3, 4, 5, 6], Kind.TreeLeaf, 7),
       ([1, 2, 3, 4, 5, 6, 7, 8], Kind.TreeLeaf, 8)]).2 (by decide)).1
    simpa [StoreInner.init, StoreInner.reserve_new_blob, BlobIndex.reserve]
      using this

theorem deleteAll_ok : ∀ (ns : List Name) (b : Backend),
    (∀ n ∈ ns, n ∉ b.failDelete) →
    StoreInner.deleteAll b ns =
      ({ b with data := b.data.filter (fun p => !(decide (p.1 ∈ ns))) },
       none) := by
  intro ns
  induction ns with
  | nil =>
      intro b _
      simp [StoreInner.deleteAll]
  | cons n rest ih =>
      intro b h
      have hn : n ∉ b.failDelete := h n (List.mem_cons_self _ _)
      have hih := ih { b with data := b.data.filter (fun p => !(decide (p.1 = n))) }
        (fun m hm => h m (List.mem_cons_of_mem _ hm))
      simp only [StoreInner.deleteAll, Backend.del, if_neg hn]
      rw [hih]
      simp only [Prod.mk.injEq, and_true]
      congr 1
      rw [List.filter_filter]
      apply List.filter_congr
      intro a _
      simp [List.mem_cons, Bool.and_comm]

theorem deleteAll_fail : ∀ (pre : List Name) (b : Backend) (nf : Name)
    (post : List Name),
    (∀ n ∈ pre, n ∉ b.failDelete) → nf ∈ b.failDelete →
    StoreInner.deleteAll b (pre ++ nf :: post) =
      ({ b with data := b.data.filter (fun p => !(decide (p.1 ∈ pre))) },
       some nf) := by
  intro pre
  induction pre with
  | nil =>
      intro b nf post _ hf
      simp [StoreInner.deleteAll, Backend.del, hf]
  | cons n rest ih =>
      intro b nf post h hf
      have hn : n ∉ b.failDelete := h n (List.mem_cons_self _ _)
      have hih := ih { b with data := b.data.filter (fun p => !(decide (p.1 = n))) }
        nf post (fun m hm => h m (List.mem_cons_of_mem _ hm)) hf
      rw [List.cons_append]
      simp only [StoreInner.deleteAll, Backend.del, if_neg hn]
      rw [hih]
      simp only [Prod.mk.injEq, and_true]
      congr 1
      rw [List.filter_filter]
      apply List.filter_congr
      intro a _
      simp [List.mem_cons, Bool.and_comm]

/-- C9: `delete_by_tag` deletes from the backend every blob the index
lists under the tag and, only when every backend delete succeeded,
purges the index's bookkeeping for that tag.  If a delete fails the
operation aborts with that failing name, the index's tag bookkeeping is
left untouched, and the blobs already deleted stay deleted. -/
theorem claim_C9 (s : StoreInner) (t : Nat) :
    ((∀ n ∈ s.blob_index.list_by_tag t, n ∉ s.backend.failDelete) →
      s.delete_by_tag t =
        ({ s with
             backend := { s.backend with
               data := s.backend.data.filter
                 (fun p => !(decide (p.1 ∈ s.blob_index.list_by_tag t))) },
             blob_index := s.blob_index.delete_by_tag t },
         none)) ∧
    (∀ pre nf post, s.blob_index.list_by_tag t = pre ++ nf :: post →
      (∀ n ∈ pre, n ∉ s.backend.failDelete) → nf ∈ s.backend.failDelete →
      s.delete_by_tag t =
        ({ s with
             backend := { s.backend with
               data := s.backend.data.filter
                 (fun p => !(decide (p.1 ∈ pre))) } },
         some nf)) := by
  constructor
  · intro h
    simp only [StoreInner.delete_by_tag]
    rw [deleteAll_ok _ _ h]
  · intro pre nf post hsplit hok hf
    simp only [StoreInner.delete_by_tag, hsplit]
    rw [deleteAll_fail pre _ nf post hok hf]

/-- C9 witness: two tagged blobs; with a healthy backend both are
deleted and the tag purged; with deletion of the second blob failing,
the first stays deleted, the error names the second, and the index's
tag entries survive. -/
theorem claim_C9_witness :
    StoreInner.delete_by_tag
        { StoreInner.init 4 with
            backend := ⟨[([5], [1]), ([6], [2])], [], []⟩,
            blob_index := ⟨1, [], [], [], [([5], 3), ([6], 3)]⟩ } 3 =
      ({ StoreInner.init 4 with
           backend := ⟨[], [], []⟩,
           blob_index := ⟨1, [], [], [], []⟩ }, none) ∧
    StoreInner.delete_by_tag
        { StoreInner.init 4 with
            backend := ⟨[([5], [1]), ([6], [2])], [], [[6]]⟩,
            blob_index := ⟨1, [], [], [], [([5], 3), ([6], 3)]⟩ } 3 =
      ({ StoreInner.init 4 with
           backend := ⟨[([6], [2])], [], [[6]]⟩,
           blob_index := ⟨1, [], [], [], [([5], 3), ([6], 3)]⟩ },
       some [6]) := by
  constructor
  · rw [(claim_C9 { StoreInner.init 4 with
        backend := ⟨[([5], [1]), ([6], [2])], [], []⟩,
        blob_index := ⟨1, [], [], [], [([5], 3), ([6], 3)]⟩ } 3).1
      (by decide)]
    decide
  · rw [(claim_C9 { StoreInner.init 4 with
        backend := ⟨[([5], [1]), ([6], [2])], [], [[6]]⟩,
        blob_index := ⟨1, [], [], [], [([5], 3), ([6], 3)]⟩ } 3).2
      [[5]] [6] [] (by decide) (by decide) (by decide)]
    decide

/-- C1: on a non-empty buffer, `flush` performs, in order: reserve and
swap in a new blob descriptor, mark the old blob in-flight, write the
buffer to the backend under the old blob's name, mark the old blob
committed, and only then invoke the pending callbacks (LIFO).  A pending
callback is invoked iff its blob has been marked committed; when the
backend write fails (the `.expect` panic) the blob is only in-flight and
no callback fires. -/
theorem claim_C1 (s : StoreInner) (hne : s.blob_data ≠ [])
    (hrefs : ∀ pr ∈ s.blob_refs, pr.1.blob_id = s.blob_desc.name) :
    (s.blob_desc.name ∉ s.backend.failPut →
      (∃ s2, s.flush =
        (some s2,
         [Event.reserved ⟨s.blob_index.next, [s.blob_index.next]⟩,
          Event.inAir s.blob_desc.name,
          Event.backendPut s.blob_desc.name s.blob_data,
          Event.commitDone s.blob_desc.name] ++
           s.blob_refs.reverse.map (fun pr => Event.cbInvoked pr.2 pr.1)) ∧
        s2.blob_desc = ⟨s.blob_index.next, [s.blob_index.next]⟩ ∧
        s2.blob_refs = []) ∧
      (∀ cb r, Event.cbInvoked cb r ∈ (s.flush).2 ↔
        ((r, cb) ∈ s.blob_refs ∧
          Event.commitDone r.blob_id ∈ (s.flush).2)) ∧
      (∀ cb r, Event.cbInvoked cb r ∈ (s.flush).2 →
        ∃ l1 l2, (s.flush).2 = l1 ++ Event.commitDone r.blob_id :: l2 ∧
          Event.cbInvoked cb r ∈ l2)) ∧
    (s.blob_desc.name ∈ s.backend.failPut →
      s.flush =
        (none,
         [Event.reserved ⟨s.blob_index.next, [s.blob_index.next]⟩,
          Event.inAir s.blob_desc.name]) ∧
      ∀ cb r, Event.cbInvoked cb r ∉ (s.flush).2) := by
  constructor
  · intro hfp
    obtain ⟨s2, hfl, hdesc, hrl⟩ :
        ∃ s2, s.flush =
          (some s2,
           [Event.reserved ⟨s.blob_index.next, [s.blob_index.next]⟩,
            Event.inAir s.blob_desc.name,
            Event.backendPut s.blob_desc.name s.blob_data,
            Event.commitDone s.blob_desc.name] ++
             s.blob_refs.reverse.map (fun pr => Event.cbInvoked pr.2 pr.1)) ∧
          s2.blob_desc = ⟨s.blob_index.next, [s.blob_index.next]⟩ ∧
          s2.blob_refs = [] := by
      simp only [StoreInner.flush, if_neg hne, StoreInner.reserve_new_blob,
        BlobIndex.reserve, Backend.put, if_neg hfp]
      exact ⟨_, rfl, rfl, rfl⟩
    have hmem_iff : ∀ cb r, Event.cbInvoked cb r ∈ (s.flush).2 ↔
        (r, cb) ∈ s.blob_refs := by
      intro cb r
      rw [hfl]
      simp only [List.mem_append, List.mem_cons, List.not_mem_nil, or_false,
        List.mem_map, List.mem_reverse, reduceCtorEq, false_or,
        Event.cbInvoked.injEq]
      constructor
      · rintro ⟨pr, hpr, h2, h1⟩
        cases pr
        simp only at h1 h2
        subst h1; subst h2
        exact hpr
      · intro hpr
        exact ⟨(r, cb), hpr, rfl, rfl⟩
    refine ⟨⟨s2, hfl, hdesc, hrl⟩, ?_, ?_⟩
    · intro cb r
      rw [hmem_iff]
      constructor
      · intro hpr
        refine ⟨hpr, ?_⟩
        rw [hfl]
        have h3 : r.blob_id = s.blob_desc.name := hrefs (r, cb) hpr
        simp [h3]
      · exact fun h => h.1
    · intro cb r hmem
      have hpr : (r, cb) ∈ s.blob_refs := (hmem_iff cb r).mp hmem
      have hid : r.blob_id = s.blob_desc.name := hrefs (r, cb) hpr
      refine ⟨[Event.reserved ⟨s.blob_index.next, [s.blob_index.next]⟩,
        Event.inAir s.blob_desc.name,
        Event.backendPut s.blob_desc.name s.blob_data],
        s.blob_refs.reverse.map (fun pr => Event.cbInvoked pr.2 pr.1),
        ?_, ?_⟩
      · rw [hid, hfl]
        simp
      · simp only [List.mem_map, List.mem_reverse]
        exact ⟨(r, cb), hpr, rfl⟩
  · intro hfp
    have hfl : s.flush =
        (none,
         [Event.reserved ⟨s.blob_index.next, [s.blob_index.next]⟩,
          Event.inAir s.blob_desc.name]) := by
      simp only [StoreInner.flush, if_neg hne, StoreInner.reserve_new_blob,
        BlobIndex.reserve, Backend.put, if_pos hfp]
    refine ⟨hfl, ?_⟩
    intro cb r hmem
    rw [hfl] at hmem
    simp at hmem

/-- C1 witness: one pending one-byte chunk; with a healthy backend the
trace is reserve, in-flight, write, commit, callback; with the write
failing the trace stops after in-flight and no callback fires. -/
theorem claim_C1_witness :
    (∃ s2, StoreInner.flush
        { StoreInner.init 10 with
            blob_data := [7],
            blob_refs := [(⟨[0], 0, 1, Kind.TreeLeaf⟩, 0)] } =
      (some s2,
       [Event.reserved ⟨1, [1]⟩, Event.inAir [0], Event.backendPut [0] [7],
        Event.commitDone [0],
        Event.cbInvoked 0 ⟨[0], 0, 1, Kind.TreeLeaf⟩]) ∧
      s2.blob_desc = ⟨1, [1]⟩ ∧ s2.blob_refs = []) ∧
    StoreInner.flush
        { StoreInner.init 10 with
            backend := ⟨[], [[0]], []⟩,
            blob_data := [7],
            blob_refs := [(⟨[0], 0, 1, Kind.TreeLeaf⟩, 0)] } =
      (none, [Event.reserved ⟨1, [1]⟩, Event.inAir [0]]) := by
  constructor
  · obtain ⟨s2, hfl, h1, h2⟩ :=
      ((claim_C1 { StoreInner.init 10 with
          blob_data := [7],
          blob_refs := [(⟨[0], 0, 1, Kind.TreeLeaf⟩, 0)] }
        (by decide) (by decide)).1 (by decide)).1
    exact ⟨s2, by simpa [StoreInner.init, StoreInner.reserve_new_blob,
      BlobIndex.reserve] using hfl, h1, h2⟩
  · exact ((claim_C1 { StoreInner.init 10 with
        backend := ⟨[], [[0]], []⟩,
        blob_data := [7],
        blob_refs := [(⟨[0], 0, 1, Kind.TreeLeaf⟩, 0)] }
      (by decide) (by decide)).2 (by decide)).1

theorem length_toLE : ∀ (k n : Nat), (toLE k n).length = k := by
  intro k
  induction k with
  | zero => intro n; rfl
  | succ k ih => intro n; simp [toLE, ih]

theorem fromLE_toLE : ∀ (k n : Nat), n < 256 ^ k → fromLE (toLE k n) = n := by
  intro k
  induction k with
  | zero =>
      intro n h
      simp only [pow_zero, Nat.lt_one_iff] at h
      subst h
      rfl
  | succ k ih =>
      intro n h
      have hdiv : n / 256 < 256 ^ k := by
        rw [Nat.div_lt_iff_lt_mul (by norm_num)]
        calc n < 256 ^ (k + 1) := h
          _ = 256 ^ k * 256 := by ring
      simp [toLE, fromLE, ih _ hdiv, Nat.mod_add_div]

theorem as_bytes_decomp (r : ChunkRef) :
    ChunkRef.as_bytes r =
      1 :: (toLE 8 r.blob_id.length ++ (r.blob_id ++ (toLE 8 r.offset ++
        (toLE 8 r.length ++ [kindTag r.kind])))) := by
  simp [ChunkRef.as_bytes]

theorem as_bytes_length (r : ChunkRef) :
    (ChunkRef.as_bytes r).length = 26 + r.blob_id.length := by
  rw [as_bytes_decomp]
  simp [List.length_append, length_toLE]
  omega

theorem as_bytes_head (r : ChunkRef) :
    (ChunkRef.as_bytes r).head? = some 1 := by
  rw [as_bytes_decomp]; rfl

theorem as_bytes_drop_one (r : ChunkRef) :
    (ChunkRef.as_bytes r).drop 1 =
      toLE 8 r.blob_id.length ++ (r.blob_id ++ (toLE 8 r.offset ++
        (toLE 8 r.length ++ [kindTag r.kind]))) := by
  rw [as_bytes_decomp]; rfl

theorem as_bytes_drop_nine (r : ChunkRef) :
    (ChunkRef.as_bytes r).drop 9 =
      r.blob_id ++ (toLE 8 r.offset ++
        (toLE 8 r.length ++ [kindTag r.kind])) := by
  calc (ChunkRef.as_bytes r).drop 9
      = ((ChunkRef.as_bytes r).drop 1).drop 8 := by rw [List.drop_drop]
    _ = _ := by
        rw [as_bytes_drop_one]
        exact List.drop_left' (length_toLE 8 _)

theorem as_bytes_drop_off (r : ChunkRef) :
    (ChunkRef.as_bytes r).drop (9 + r.blob_id.length) =
      toLE 8 r.offset ++ (toLE 8 r.length ++ [kindTag r.kind]) := by
  calc (ChunkRef.as_bytes r).drop (9 + r.blob_id.length)
      = ((ChunkRef.as_bytes r).drop 9).drop r.blob_id.length := by
        rw [List.drop_drop]
    _ = _ := by
        rw [as_bytes_drop_nine]
        exact List.drop_left _ _

theorem as_bytes_drop_len (r : ChunkRef) :
    (ChunkRef.as_bytes r).drop (17 + r.blob_id.length) =
      toLE 8 r.length ++ [kindTag r.kind] := by
  have h8 : 9 + r.blob_id.length + 8 = 17 + r.blob_id.length := by omega
  calc (ChunkRef.as_bytes r).drop (17 + r.blob_id.length)
      = ((ChunkRef.as_bytes r).drop (9 + r.blob_id.length)).drop 8 := by
        rw [List.drop_drop, h8]
    _ = _ := by
        rw [as_bytes_drop_off]
        exact List.drop_left' (length_toLE 8 _)

theorem as_bytes_drop_tag (r : ChunkRef) :
    (ChunkRef.as_bytes r).drop (25 + r.blob_id.length) = [kindTag r.kind] := by
  have h8 : 17 + r.blob_id.length + 8 = 25 + r.blob_id.length := by omega
  calc (ChunkRef.as_bytes r).drop (25 + r.blob_id.length)
      = ((ChunkRef.as_bytes r).drop (17 + r.blob_id.length)).drop 8 := by
        rw [List.drop_drop, h8]
    _ = _ := by
        rw [as_bytes_drop_len]
        exact List.drop_left' (length_toLE 8 _)

theorem pow256_eight : (256 : Nat) ^ 8 = 2 ^ 64 := by norm_num

theorem from_bytes_as_bytes (r : ChunkRef) (h : r.WF) :
    ChunkRef.from_bytes (ChunkRef.as_bytes r) = .ok r := by
  obtain ⟨hid, hoff, hlen⟩ := h
  have hN : fromLE (((ChunkRef.as_bytes r).drop 1).take 8) =
      r.blob_id.length := by
    rw [as_bytes_drop_one, List.take_left' (length_toLE 8 _)]
    exact fromLE_toLE 8 _ (by rw [pow256_eight]; exact hid)
  have hB : ((ChunkRef.as_bytes r).drop 9).take r.blob_id.length =
      r.blob_id := by
    rw [as_bytes_drop_nine]
    exact List.take_left _ _
  have hC : fromLE (((ChunkRef.as_bytes r).drop
      (9 + r.blob_id.length)).take 8) = r.offset := by
    rw [as_bytes_drop_off, List.take_left' (length_toLE 8 _)]
    exact fromLE_toLE 8 _ (by rw [pow256_eight]; omega)
  have hD : fromLE (((ChunkRef.as_bytes r).drop
      (17 + r.blob_id.length)).take 8) = r.length := by
    rw [as_bytes_drop_len, List.take_left' (length_toLE 8 _)]
    exact fromLE_toLE 8 _ (by rw [pow256_eight]; omega)
  have hT : ((ChunkRef.as_bytes r).drop (25 + r.blob_id.length)).take 1 =
      [kindTag r.kind] := by
    rw [as_bytes_drop_tag]
    rfl
  simp only [ChunkRef.from_bytes, hN, as_bytes_length, as_bytes_head,
    hB, hC, hD, hT]
  rw [if_neg (by omega), if_neg (by simp), if_neg (by omega)]
  obtain ⟨bid, boff, blen, bk⟩ := r
  cases bk <;> simp [kindTag]

theorem from_bytes_truncated (r : ChunkRef) (h : r.WF) :
    ∀ k, k < (ChunkRef.as_bytes r).length →
      (ChunkRef.from_bytes ((ChunkRef.as_bytes r).take k)).isOk = false := by
  obtain ⟨hid, hoff, hlen⟩ := h
  intro k hk
  rw [as_bytes_length] at hk
  by_cases h9 : k < 9
  · have hlt : ((ChunkRef.as_bytes r).take k).length < 9 := by
      rw [List.length_take, as_bytes_length]
      omega
    simp only [ChunkRef.from_bytes, if_pos hlt]
    rfl
  · push_neg at h9
    have hklen : ((ChunkRef.as_bytes r).take k).length = k := by
      rw [List.length_take, as_bytes_length]
      omega
    obtain ⟨k1, rfl⟩ : ∃ k1, k = k1 + 1 := ⟨k - 1, by omega⟩
    have h8le : 8 ≤ k1 := by omega
    have hhead : ((ChunkRef.as_bytes r).take (k1 + 1)).head? = some 1 := by
      rw [as_bytes_decomp, List.take_succ_cons]
      rfl
    have hA : (((ChunkRef.as_bytes r).take (k1 + 1)).drop 1).take 8 =
        toLE 8 r.blob_id.length := by
      rw [as_bytes_decomp, List.take_succ_cons]
      show (List.take k1 _).take 8 = _
      rw [List.take_take, Nat.min_eq_left h8le]
      exact List.take_left' (length_toLE 8 _)
    have hN : fromLE ((((ChunkRef.as_bytes r).take (k1 + 1)).drop 1).take 8) =
        r.blob_id.length := by
      rw [hA]
      exact fromLE_toLE 8 _ (by rw [pow256_eight]; exact hid)
    simp only [ChunkRef.from_bytes, hN, hklen, hhead]
    rw [if_neg (by omega), if_neg (by simp), if_pos (by omega)]
    rfl

/-- C4: for every well-formed `ChunkRef` (any blob id, offset and length
representable as non-negative int64), decoding its encoding returns it
exactly, and decoding any strictly truncated encoding fails with a
format error. -/
theorem claim_C4 (r : ChunkRef) (h : r.WF) :
    ChunkRef.from_bytes (ChunkRef.as_bytes r) = .ok r ∧
    ∀ k, k < (ChunkRef.as_bytes r).length →
      (ChunkRef.from_bytes ((ChunkRef.as_bytes r).take k)).isOk = false :=
  ⟨from_bytes_as_bytes r h, from_bytes_truncated r h⟩

/-- C4 witness: a concrete reference round-trips; its 3-byte truncation
fails to decode. -/
theorem claim_C4_witness :
    ChunkRef.from_bytes (ChunkRef.as_bytes ⟨[3, 4], 5, 2, Kind.TreeLeaf⟩) =
        .ok ⟨[3, 4], 5, 2, Kind.TreeLeaf⟩ ∧
      (ChunkRef.from_bytes
        ((ChunkRef.as_bytes ⟨[3, 4], 5, 2, Kind.TreeLeaf⟩).take 3)).isOk =
        false :=
  ⟨(claim_C4 ⟨[3, 4], 5, 2, Kind.TreeLeaf⟩ (by decide)).1,
   (claim_C4 ⟨[3, 4], 5, 2, Kind.TreeLeaf⟩ (by decide)).2 3 (by decide)⟩

/-- A reference's byte range lies inside a payload and denotes `c`. -/
def SliceAt (d : Bytes) (r : ChunkRef) (c : Bytes) : Prop :=
  r.offset + r.length ≤ d.length ∧ (d.drop r.offset).take r.length = c

/-- The ways a previously returned `(chunk, ref)` pair can be resolvable
in a state: the canonical empty reference, an address into the current
buffer, or an address into a blob already written to the backend. -/
def GoodPair (s : StoreInner) (c : Bytes) (r : ChunkRef) : Prop :=
  (r.offset = 0 ∧ r.length = 0 ∧ c = []) ∨
  (r.blob_id = s.blob_desc.name ∧ SliceAt s.blob_data r c) ∨
  (∃ b, s.backend.get r.blob_id = some b ∧ SliceAt b r c)

/-- All collected pairs are resolvable in the state. -/
def Good (s : StoreInner) (prs : List (Bytes × ChunkRef)) : Prop :=
  ∀ p ∈ prs, GoodPair s p.1 p.2

/-- Reachability invariant of the engine started from `init`: the
backend never fails a write, every stored blob name was handed out by
the index before the current one, and the current name is the most
recently reserved. -/
structure Inv (s : StoreInner) : Prop where
  failPut : s.backend.failPut = []
  names : ∀ p ∈ s.backend.data, ∃ k, p.1 = [k] ∧ k + 1 < s.blob_index.next
  cur : s.blob_desc.name = [s.blob_index.next - 1]
  pos : 1 ≤ s.blob_index.next

theorem find?_filter_of_imp {α : Type} (l : List α) (p q : α → Bool)
    (h : ∀ a, p a = true → q a = true) :
    (l.filter q).find? p = l.find? p := by
  induction l with
  | nil => rfl
  | cons a l ih =>
      cases hqa : q a with
      | false =>
          have hpa : p a = false := by
            cases hpa : p a
            · rfl
            · have := h a hpa
              rw [hqa] at this
              exact absurd this (by simp)
          simp [List.filter_cons, hqa, List.find?_cons, hpa, ih]
      | true =>
          cases hpa : p a <;>
            simp [List.filter_cons, hqa, List.find?_cons, hpa, ih]

theorem get_put (b b2 : Backend) (n : Name) (d : Bytes)
    (h : b.put n d = .ok b2) (m : Name) :
    b2.get m = if m = n then some d else b.get m := by
  unfold Backend.put at h
  by_cases hf : n ∈ b.failPut
  · simp [hf] at h
  · simp only [if_neg hf, Except.ok.injEq] at h
    subst h
    by_cases hm : m = n
    · subst hm
      simp [Backend.get, List.find?_cons]
    · simp only [Backend.get, List.find?_cons, if_neg hm]
      rw [show (decide ((n, d).1 = m)) = false by simp [Ne.symm hm]]
      simp only [cond_false]
      rw [find?_filter_of_imp]
      intro a ha
      simp only [decide_eq_true_eq] at ha
      simp [ha, hm]

theorem get_names (b : Backend) (m : Name) (bb : Bytes)
    (h : b.get m = some bb) : ∃ p ∈ b.data, p.1 = m := by
  unfold Backend.get at h
  cases hf : b.data.find? (fun p => decide (p.1 = m)) with
  | none => rw [hf] at h; simp at h
  | some p =>
      refine ⟨p, List.mem_of_find?_eq_some hf, ?_⟩
      have := List.find?_some hf
      simpa using this

theorem slice_append (d e : Bytes) (off len : Nat)
    (h : off + len ≤ d.length) :
    ((d ++ e).drop off).take len = (d.drop off).take len := by
  rw [List.drop_append_of_le_length (by omega)]
  rw [List.take_append_of_le_length (by rw [List.length_drop]; omega)]

theorem SliceAt.append (d e : Bytes) (r : ChunkRef) (c : Bytes)
    (h : SliceAt d r c) : SliceAt (d ++ e) r c := by
  obtain ⟨h1, h2⟩ := h
  refine ⟨by rw [List.length_append]; omega, ?_⟩
  rw [slice_append d e r.offset r.length h1]
  exact h2

theorem store_inv (s : StoreInner) (c : Bytes) (k : Kind) (cb : Nat)
    (h : Inv s) : Inv (s.store c k cb).2.1 := by
  unfold StoreInner.store
  by_cases hc : c = [] <;> simp only [hc, if_pos, if_neg, if_true, if_false,
    reduceIte] <;> exact ⟨h.failPut, h.names, h.cur, h.pos⟩

theorem store_goodPair (s : StoreInner) (c0 : Bytes) (r0 : ChunkRef)
    (c : Bytes) (k : Kind) (cb : Nat) (h : GoodPair s c0 r0) :
    GoodPair (s.store c k cb).2.1 c0 r0 := by
  unfold StoreInner.store
  by_cases hc : c = []
  · simpa [hc] using h
  · simp only [if_neg hc]
    rcases h with h | ⟨hn, hs⟩ | h
    · exact Or.inl h
    · exact Or.inr (Or.inl ⟨hn, SliceAt.append _ _ _ _ hs⟩)
    · exact Or.inr (Or.inr h)

theorem store_goodPair_new (s : StoreInner) (c : Bytes) (k : Kind)
    (cb : Nat) : GoodPair (s.store c k cb).2.1 c (s.store c k cb).1 := by
  unfold StoreInner.store
  by_cases hc : c = []
  · simp only [if_pos hc]
    exact Or.inl ⟨rfl, rfl, hc⟩
  · simp only [if_neg hc]
    refine Or.inr (Or.inl ⟨rfl, ?_, ?_⟩)
    · simp [List.length_append]
    · show ((s.blob_data ++ c).drop s.blob_data.length).take c.length = c
      rw [List.drop_left, List.take_length]

theorem flush_step (s : StoreInner) (hI : Inv s) (s2 : StoreInner)
    (evs : List Event) (h : s.flush = (some s2, evs)) :
    Inv s2 ∧ (∀ c r, GoodPair s c r → GoodPair s2 c r) ∧
      s2.blob_data = [] := by
  unfold StoreInner.flush at h
  by_cases hd : s.blob_data = []
  · rw [if_pos hd] at h
    simp only [Prod.mk.injEq, Option.some.injEq] at h
    obtain ⟨rfl, -⟩ := h
    exact ⟨hI, fun _ _ hg => hg, hd⟩
  · rw [if_neg hd] at h
    simp only [StoreInner.reserve_new_blob, BlobIndex.reserve,
      BlobIndex.in_air, BlobIndex.commit_done] at h
    have hput : s.backend.put s.blob_desc.name s.blob_data =
        .ok { s.backend with
              data := (s.blob_desc.name, s.blob_data) ::
                s.backend.data.filter
                  (fun p => !(decide (p.1 = s.blob_desc.name))) } := by
      unfold Backend.put
      rw [if_neg (by rw [hI.failPut]; exact List.not_mem_nil _)]
    rw [hput] at h
    simp only [Prod.mk.injEq, Option.some.injEq] at h
    obtain ⟨rfl, -⟩ := h
    have hget_new : ∀ m, m = s.blob_desc.name →
        Backend.get { s.backend with
            data := (s.blob_desc.name, s.blob_data) ::
              s.backend.data.filter
                (fun p => !(decide (p.1 = s.blob_desc.name))) } m =
          some s.blob_data := by
      intro m hm
      rw [get_put _ _ _ _ hput m, if_pos hm]
    have hget_old : ∀ m, m ≠ s.blob_desc.name →
        Backend.get { s.backend with
            data := (s.blob_desc.name, s.blob_data) ::
              s.backend.data.filter
                (fun p => !(decide (p.1 = s.blob_desc.name))) } m =
          s.backend.get m := by
      intro m hm
      rw [get_put _ _ _ _ hput m, if_neg hm]
    have hpos := hI.pos
    refine ⟨⟨hI.failPut, ?_, ?_, ?_⟩, ?_, rfl⟩
    · show ∀ p ∈ (s.blob_desc.name, s.blob_data) ::
          s.backend.data.filter (fun q => !(decide (q.1 = s.blob_desc.name))),
        ∃ k, p.1 = [k] ∧ k + 1 < s.blob_index.next + 1
      intro p hp
      rcases List.mem_cons.mp hp with hp | hp
      · refine ⟨s.blob_index.next - 1, ?_, by omega⟩
        rw [hp]
        exact hI.cur
      · obtain ⟨k, hk1, hk2⟩ := hI.names p (List.mem_of_mem_filter hp)
        exact ⟨k, hk1, by omega⟩
    · show ([s.blob_index.next] : Name) = [s.blob_index.next + 1 - 1]
      rfl
    · show 1 ≤ s.blob_index.next + 1
      omega
    · intro c r hg
      rcases hg with hg | ⟨hn, hs⟩ | ⟨bb, hget, hs⟩
      · exact Or.inl hg
      · refine Or.inr (Or.inr ⟨s.blob_data, ?_, hs⟩)
        exact hget_new r.blob_id hn
      · refine Or.inr (Or.inr ⟨bb, ?_, hs⟩)
        obtain ⟨p, hp, hp1⟩ := get_names _ _ _ hget
        obtain ⟨k, hk1, hk2⟩ := hI.names p hp
        have hne : r.blob_id ≠ s.blob_desc.name := by
          rw [← hp1, hk1, hI.cur]
          intro hcon
          have : k = s.blob_index.next - 1 := by
            simpa using hcon
          omega
        rw [hget_old r.blob_id hne]
        exact hget

theorem maybe_flush_step (s : StoreInner) (hI : Inv s) (s2 : StoreInner)
    (evs : List Event) (h : s.maybe_flush = (some s2, evs)) :
    Inv s2 ∧ (∀ c r, GoodPair s c r → GoodPair s2 c r) := by
  unfold StoreInner.maybe_flush at h
  by_cases hc : s.max_blob_size ≤ s.blob_data.length
  · rw [if_pos hc] at h
    obtain ⟨h1, h2, -⟩ := flush_step s hI s2 evs h
    exact ⟨h1, h2⟩
  · rw [if_neg hc] at h
    simp only [Prod.mk.injEq, Option.some.injEq] at h
    obtain ⟨rfl, -⟩ := h
    exact ⟨hI, fun _ _ hg => hg⟩

theorem run_preserves : ∀ (ops : List Op) (s : StoreInner), Inv s →
    ∀ sf prs, run s ops = some (sf, prs) →
      Inv sf ∧ Good sf prs ∧ (∀ prs0, Good s prs0 → Good sf prs0) := by
  intro ops
  induction ops with
  | nil =>
      intro s hI sf prs h
      simp only [run, Option.some.injEq, Prod.mk.injEq] at h
      obtain ⟨rfl, rfl⟩ := h
      exact ⟨hI, fun p hp => absurd hp (List.not_mem_nil p),
        fun _ hg => hg⟩
  | cons op rest ih =>
      intro s hI sf prs h
      cases op with
      | store c k cb =>
          simp only [run] at h
          cases hr : run (s.store c k cb).2.1 rest with
          | none => rw [hr] at h; simp at h
          | some q =>
              obtain ⟨qs, qp⟩ := q
              rw [hr] at h
              simp only [Option.map_some', Option.some.injEq] at h
              injection h with h1 h2
              subst h1
              subst h2
              obtain ⟨hIf, hGf, htrans⟩ :=
                ih _ (store_inv s c k cb hI) qs qp (by rw [hr])
              refine ⟨hIf, ?_, ?_⟩
              · intro p hp
                rcases List.mem_cons.mp hp with hp | hp
                · subst hp
                  have hone : Good (s.store c k cb).2.1
                      [(c, (s.store c k cb).1)] := by
                    intro p hp
                    rcases List.mem_cons.mp hp with hp | hp
                    · subst hp
                      exact store_goodPair_new s c k cb
                    · exact absurd hp (List.not_mem_nil p)
                  exact htrans _ hone (c, (s.store c k cb).1)
                    (List.mem_cons_self _ _)
                · exact hGf p hp
              · intro prs0 hg0
                refine htrans prs0 ?_
                intro p hp
                exact store_goodPair s p.1 p.2 c k cb (hg0 p hp)
      | flush =>
          simp only [run] at h
          cases hf : s.flush with
          | mk o evs =>
              cases o with
              | none => rw [hf] at h; simp at h
              | some s2 =>
                  rw [hf] at h
                  obtain ⟨hI2, htr, -⟩ := flush_step s hI s2 evs hf
                  obtain ⟨hIf, hGf, htrans⟩ := ih s2 hI2 sf prs h
                  refine ⟨hIf, hGf, ?_⟩
                  intro prs0 hg0
                  exact htrans prs0 (fun p hp => htr p.1 p.2 (hg0 p hp))
      | maybeFlush =>
          simp only [run] at h
          cases hf : s.maybe_flush with
          | mk o evs =>
              cases o with
              | none => rw [hf] at h; simp at h
              | some s2 =>
                  rw [hf] at h
                  obtain ⟨hI2, htr⟩ := maybe_flush_step s hI s2 evs hf
                  obtain ⟨hIf, hGf, htrans⟩ := ih s2 hI2 sf prs h
                  refine ⟨hIf, hGf, ?_⟩
                  intro prs0 hg0
                  exact htrans prs0 (fun p hp => htr p.1 p.2 (hg0 p hp))

theorem run_snoc_flush : ∀ (ops : List Op) (s : StoreInner)
    (sf : StoreInner) (prs : List (Bytes × ChunkRef)),
    run s (ops ++ [Op.flush]) = some (sf, prs) →
    ∃ s1 evs, run s ops = some (s1, prs) ∧ s1.flush = (some sf, evs) := by
  intro ops
  induction ops with
  | nil =>
      intro s sf prs h
      simp only [List.nil_append, run] at h
      cases hf : s.flush with
      | mk o evs =>
          cases o with
          | none => rw [hf] at h; simp at h
          | some s2 =>
              rw [hf] at h
              simp only [run, Option.some.injEq, Prod.mk.injEq] at h
              obtain ⟨rfl, rfl⟩ := h
              exact ⟨s, evs, rfl, hf⟩
  | cons op rest ih =>
      intro s sf prs h
      cases op with
      | store c k cb =>
          rw [List.cons_append] at h
          simp only [run] at h
          cases hr : run (s.store c k cb).2.1 (rest ++ [Op.flush]) with
          | none => rw [hr] at h; simp at h
          | some q =>
              obtain ⟨qs, qp⟩ := q
              rw [hr] at h
              simp only [Option.map_some', Option.some.injEq] at h
              injection h with h1 h2
              subst h1
              subst h2
              obtain ⟨s1, evs, hrun, hfl⟩ := ih _ qs qp hr
              refine ⟨s1, evs, ?_, hfl⟩
              simp only [run, hrun, Option.map_some']
      | flush =>
          rw [List.cons_append] at h
          simp only [run] at h
          cases hf : s.flush with
          | mk o evs =>
              cases o with
              | none => rw [hf] at h; simp at h
              | some s2 =>
                  rw [hf] at h
                  obtain ⟨s1, evs2, hrun, hfl⟩ := ih s2 sf prs h
                  refine ⟨s1, evs2, ?_, hfl⟩
                  simp only [run, hf, hrun]
      | maybeFlush =>
          rw [List.cons_append] at h
          simp only [run] at h
          cases hf : s.maybe_flush with
          | mk o evs =>
              cases o with
              | none => rw [hf] at h; simp at h
              | some s2 =>
                  rw [hf] at h
                  obtain ⟨s1, evs2, hrun, hfl⟩ := ih s2 sf prs h
                  refine ⟨s1, evs2, ?_, hfl⟩
                  simp only [run, hf, hrun]

theorem init_inv (m : Nat) : Inv (StoreInner.init m) := by
  refine ⟨rfl, ?_, rfl, le_refl 1⟩
  intro p hp
  exact absurd hp (List.not_mem_nil p)

theorem retrieve_goodPair (s : StoreInner) (c : Bytes) (r : ChunkRef)
    (h : GoodPair s c r) (hd : s.blob_data = []) :
    s.retrieve r = .ok (some c) := by
  rcases h with ⟨h0, h1, h2⟩ | ⟨hn, hb, hs⟩ | ⟨bb, hget, hb, hs⟩
  · subst h2
    simp [StoreInner.retrieve, h0, h1]
  · rw [hd] at hb
    simp only [List.length_nil, Nat.le_zero, Nat.add_eq_zero] at hb
    obtain ⟨h0, h1⟩ := hb
    have hc : c = [] := by
      rw [← hs, h1]
      rfl
    simp [StoreInner.retrieve, h0, h1, hc]
  · by_cases hz : r.offset = 0 ∧ r.length = 0
    · have hc : c = [] := by
        rw [← hs, hz.2]
        rfl
      simp [StoreInner.retrieve, hz, hc]
    · simp only [StoreInner.retrieve, if_neg hz, hget, if_pos hb]
      rw [hs]

/-- C2: start the engine fresh, run any sequence of stores, flushes and
background flush checks, then a final flush.  Every `(chunk, ref)` pair
any of the stores returned along the way now retrieves to exactly the
original chunk bytes. -/
theorem claim_C2 (m : Nat) (ops : List Op) (sf : StoreInner)
    (prs : List (Bytes × ChunkRef))
    (h : run (StoreInner.init m) (ops ++ [Op.flush]) = some (sf, prs)) :
    ∀ c r, (c, r) ∈ prs → sf.retrieve r = .ok (some c) := by
  obtain ⟨s1, evs, hrun, hfl⟩ := run_snoc_flush ops (StoreInner.init m) sf prs h
  obtain ⟨hI1, hG1, -⟩ := run_preserves ops (StoreInner.init m)
    (init_inv m) s1 prs hrun
  obtain ⟨hIf, htr, hempty⟩ := flush_step s1 hI1 sf evs hfl
  intro c r hmem
  exact retrieve_goodPair sf c r (htr c r (hG1 (c, r) hmem)) hempty

/-- C2 witness: store one byte, flush, retrieve it back. -/
theorem claim_C2_witness :
    StoreInner.retrieve
        ⟨⟨[([0], [7])], [], []⟩, ⟨2, [], [[0]], [], []⟩, ⟨1, [1]⟩, [], [], 10⟩
        ⟨[0], 0, 1, Kind.TreeLeaf⟩ = .ok (some [7]) :=
  claim_C2 10 [Op.store [7] Kind.TreeLeaf 0]
    ⟨⟨[([0], [7])], [], []⟩, ⟨2, [], [[0]], [], []⟩, ⟨1, [1]⟩, [], [], 10⟩
    [([7], ⟨[0], 0, 1, Kind.TreeLeaf⟩)] (by decide)
    [7] ⟨[0], 0, 1, Kind.TreeLeaf⟩ (by decide)

end HatBackup
